import Mathlib

/-!
Verification development for the audio-analyzer backend.

The development shallowly embeds the code of the three backend modules:

* `audio_filter_analyzer.py`: the stateful second-order-section (SOS)
  bandpass filter pipeline (`get_filtered_i_component`, `set_filter`,
  `reset_filter`, `set_mode`), the amplitude analyzer
  (`calculate_amplitude`) and the re-streaming queue
  (`WavStreamManager.add_data` / `event_generator`).
* `audio_iq_generator.py`: the chunking of a segment
  (`StreamManager.get_chunks_from_segment`), the timed broadcast
  scheduler (`StreamManager.send_data_timed`), the per-mode session
  state (`StreamManager.__init__`, `start_streams`, `stop`) and the
  socket `set_mode` handler.
* `main.py`: the file-playback amplitude computation inside
  `stream_data`.

Samples and clock readings are modelled as exact rationals; byte values
as naturals.  Mutable module globals become explicit state records that
the embedded functions take and return.
-/

/-- One second-order section (biquad) with normalized leading denominator
coefficient a0 = 1, as produced by `scipy.signal.butter(..., output='sos')`
and consumed by `scipy.signal.sosfilt`. -/
structure Biquad where
  b0 : ℚ
  b1 : ℚ
  b2 : ℚ
  a1 : ℚ
  a2 : ℚ
deriving DecidableEq

/-- The direct form II transposed recurrence of one section over a signal,
per sample: y = b0*x + z0; z0 := b1*x - a1*y + z1; z1 := b2*x - a2*y.
Returns the output signal together with the final (z0, z1) state, exactly
what `sosfilt` computes for a single section with initial conditions. -/
def biquadFilt (c : Biquad) : ℚ × ℚ → List ℚ → List ℚ × (ℚ × ℚ)
  | z, [] => ([], z)
  | z, x :: xs =>
    let y := c.b0 * x + z.1
    let r := biquadFilt c (c.b1 * x - c.a1 * y + z.2, c.b2 * x - c.a2 * y) xs
    (y :: r.1, r.2)

/-- `scipy.signal.sosfilt(sos, x, zi)`: the cascade of the sections applied
to the signal, each section filtering the previous section's output and
carrying its own (z0, z1) state.  Returns the filtered signal and the list
of final per-section states. -/
def sosfilt : List Biquad → List (ℚ × ℚ) → List ℚ → List ℚ × List (ℚ × ℚ)
  | [], _, xs => (xs, [])
  | c :: cs, zs, xs =>
    let r1 := biquadFilt c zs.headI xs
    let r2 := sosfilt cs zs.tail r1.1
    (r2.1, r1.2 :: r2.2)

lemma biquadFilt_append (c : Biquad) (z : ℚ × ℚ) (xs ys : List ℚ) :
    biquadFilt c z (xs ++ ys) =
      ((biquadFilt c z xs).1 ++ (biquadFilt c (biquadFilt c z xs).2 ys).1,
       (biquadFilt c (biquadFilt c z xs).2 ys).2) := by
  induction xs generalizing z with
  | nil => simp [biquadFilt]
  | cons x xs ih => simp [biquadFilt, ih]

lemma sosfilt_append (cs : List Biquad) (zs : List (ℚ × ℚ)) (xs ys : List ℚ) :
    sosfilt cs zs (xs ++ ys) =
      ((sosfilt cs zs xs).1 ++ (sosfilt cs (sosfilt cs zs xs).2 ys).1,
       (sosfilt cs (sosfilt cs zs xs).2 ys).2) := by
  induction cs generalizing zs xs ys with
  | nil => simp [sosfilt]
  | cons c cs ih =>
    simp only [sosfilt, biquadFilt_append]
    simp only [List.headI_cons, List.tail_cons, ih]

lemma sosfilt_state_length (cs : List Biquad) (zs : List (ℚ × ℚ)) (xs : List ℚ) :
    (sosfilt cs zs xs).2.length = cs.length := by
  induction cs generalizing zs xs with
  | nil => simp [sosfilt]
  | cons c cs ih => simp [sosfilt, ih]

lemma biquadFilt_nil (c : Biquad) (z : ℚ × ℚ) : biquadFilt c z [] = ([], z) := rfl

lemma sosfilt_nil (cs : List Biquad) (zs : List (ℚ × ℚ))
    (h : zs.length = cs.length) : sosfilt cs zs [] = ([], zs) := by
  induction cs generalizing zs with
  | nil =>
    have : zs = [] := List.length_eq_zero.mp h
    simp [sosfilt, this]
  | cons c cs ih =>
    match zs, h with
    | z :: zt, h =>
      have ht : zt.length = cs.length := by simpa using h
      simp [sosfilt, biquadFilt_nil, ih zt ht]

/-- The four carried SOS state vectors of the filter pipeline: low-pass and
high-pass states for each of the I and Q rails (`zi_low_i`, `zi_low_q`,
`zi_high_i`, `zi_high_q` in `audio_filter_analyzer.py`). -/
structure FilterZi where
  low_i : List (ℚ × ℚ)
  low_q : List (ℚ × ℚ)
  high_i : List (ℚ × ℚ)
  high_q : List (ℚ × ℚ)
deriving DecidableEq

/-- Zeroed SOS states: `np.zeros((n_sections, 2))` for each of the four
vectors, with the section counts of the low-pass and high-pass designs. -/
def zeroZi (nlow nhigh : ℕ) : FilterZi :=
  ⟨List.replicate nlow (0, 0), List.replicate nlow (0, 0),
   List.replicate nhigh (0, 0), List.replicate nhigh (0, 0)⟩

/-- The filtering core of `get_filtered_i_component` once the states exist:
I rail through the low-pass cascade then the high-pass cascade, Q rail
likewise, returning the filtered I samples (the function's return value;
the filtered Q samples are computed for their state effect and discarded,
as in the code) together with the four updated state vectors. -/
def filterCore (sl sh : List Biquad) (z : FilterZi) (iq : List (ℚ × ℚ)) :
    List ℚ × FilterZi :=
  let ri1 := sosfilt sl z.low_i (iq.map Prod.fst)
  let ri2 := sosfilt sh z.high_i ri1.1
  let rq1 := sosfilt sl z.low_q (iq.map Prod.snd)
  let rq2 := sosfilt sh z.high_q rq1.1
  (ri2.1, ⟨ri1.2, rq1.2, ri2.2, rq2.2⟩)

/-- The mutable module globals of `audio_filter_analyzer.py` consumed by the
filter pass: the four optional state vectors (each starts as `None`) and the
current cutoffs. -/
structure AnalyzerState where
  zi_low_i : Option (List (ℚ × ℚ))
  zi_low_q : Option (List (ℚ × ℚ))
  zi_high_i : Option (List (ℚ × ℚ))
  zi_high_q : Option (List (ℚ × ℚ))
  low_cut : ℚ
  high_cut : ℚ
deriving DecidableEq

/-- The module-load values of the globals: all four state vectors `None`,
`low_cut = 20.0`, `high_cut = 22000.0`. -/
def initialAnalyzerState : AnalyzerState :=
  ⟨none, none, none, none, 20, 22000⟩

/-- An analyzer state as it would be at module load except with the given
cutoffs: no filtering has ever happened (states `None`). -/
def freshAnalyzerState (lc hc : ℚ) : AnalyzerState :=
  ⟨none, none, none, none, lc, hc⟩

/-- An analyzer state whose four state vectors are all present. -/
def someAnalyzerState (lc hc : ℚ) (z : FilterZi) : AnalyzerState :=
  ⟨some z.low_i, some z.low_q, some z.high_i, some z.high_q, lc, hc⟩

/-- `get_filtered_i_component(iq_data)`: designs the low-pass cascade at
`high_cut` and the high-pass cascade at `low_cut` (the Butterworth design
`signal.butter(4, cutoff, ..., output='sos')` is abstracted as the supplied
design functions `dlp`, `dhp`, fixed functions of the cutoff), zero-fills
the four state vectors when `zi_low_i is None`, filters both rails with
carried state and returns the filtered I samples plus the updated globals. -/
def get_filtered_i_component (dlp dhp : ℚ → List Biquad)
    (st : AnalyzerState) (iq : List (ℚ × ℚ)) : List ℚ × AnalyzerState :=
  let sl := dlp st.high_cut
  let sh := dhp st.low_cut
  let z : FilterZi :=
    match st.zi_low_i with
    | none => zeroZi sl.length sh.length
    | some zli => ⟨zli, st.zi_low_q.getD [], st.zi_high_i.getD [], st.zi_high_q.getD []⟩
  let r := filterCore sl sh z iq
  (r.1, { st with zi_low_i := some r.2.low_i, zi_low_q := some r.2.low_q,
                  zi_high_i := some r.2.high_i, zi_high_q := some r.2.high_q })

/-- Sequentially filtering a list of chunks through repeated calls of
`get_filtered_i_component`, concatenating the outputs and threading the
mutated globals. -/
def processChunks (dlp dhp : ℚ → List Biquad) (st : AnalyzerState) :
    List (List (ℚ × ℚ)) → List ℚ × AnalyzerState
  | [] => ([], st)
  | ch :: rest =>
    let r := get_filtered_i_component dlp dhp st ch
    let r2 := processChunks dlp dhp r.2 rest
    (r.1 ++ r2.1, r2.2)

/-- Sequential chunk filtering at the `filterCore` level (states always
present). -/
def coreChunks (sl sh : List Biquad) (z : FilterZi) :
    List (List (ℚ × ℚ)) → List ℚ × FilterZi
  | [] => ([], z)
  | ch :: rest =>
    let r := filterCore sl sh z ch
    let r2 := coreChunks sl sh r.2 rest
    (r.1 ++ r2.1, r2.2)

/-- The four state vectors have the section counts of their cascades. -/
def goodZi (sl sh : List Biquad) (z : FilterZi) : Prop :=
  z.low_i.length = sl.length ∧ z.low_q.length = sl.length ∧
  z.high_i.length = sh.length ∧ z.high_q.length = sh.length

lemma goodZi_zeroZi (sl sh : List Biquad) : goodZi sl sh (zeroZi sl.length sh.length) := by
  simp [goodZi, zeroZi]

lemma goodZi_filterCore (sl sh : List Biquad) (z : FilterZi) (iq : List (ℚ × ℚ)) :
    goodZi sl sh (filterCore sl sh z iq).2 := by
  simp [goodZi, filterCore, sosfilt_state_length]

lemma filterCore_nil (sl sh : List Biquad) (z : FilterZi) (hz : goodZi sl sh z) :
    filterCore sl sh z [] = ([], z) := by
  obtain ⟨h1, h2, h3, h4⟩ := hz
  simp [filterCore, sosfilt_nil _ _ h1, sosfilt_nil _ _ h2,
        sosfilt_nil _ _ h3, sosfilt_nil _ _ h4]

lemma filterCore_append (sl sh : List Biquad) (z : FilterZi) (a b : List (ℚ × ℚ)) :
    filterCore sl sh z (a ++ b) =
      ((filterCore sl sh z a).1 ++ (filterCore sl sh (filterCore sl sh z a).2 b).1,
       (filterCore sl sh (filterCore sl sh z a).2 b).2) := by
  simp only [filterCore, List.map_append, sosfilt_append]

lemma coreChunks_flatten (sl sh : List Biquad) (z : FilterZi)
    (chunks : List (List (ℚ × ℚ))) (hz : goodZi sl sh z) :
    coreChunks sl sh z chunks = filterCore sl sh z chunks.flatten := by
  induction chunks generalizing z with
  | nil => simp [coreChunks, filterCore_nil sl sh z hz]
  | cons ch rest ih =>
    simp only [coreChunks, List.flatten_cons, filterCore_append]
    rw [ih _ (goodZi_filterCore sl sh z ch)]

lemma get_filtered_some (dlp dhp : ℚ → List Biquad) (lc hc : ℚ) (z : FilterZi)
    (iq : List (ℚ × ℚ)) :
    get_filtered_i_component dlp dhp (someAnalyzerState lc hc z) iq =
      ((filterCore (dlp hc) (dhp lc) z iq).1,
       someAnalyzerState lc hc (filterCore (dlp hc) (dhp lc) z iq).2) := by
  simp [get_filtered_i_component, someAnalyzerState]

lemma get_filtered_fresh (dlp dhp : ℚ → List Biquad) (lc hc : ℚ)
    (iq : List (ℚ × ℚ)) :
    get_filtered_i_component dlp dhp (freshAnalyzerState lc hc) iq =
      ((filterCore (dlp hc) (dhp lc) (zeroZi (dlp hc).length (dhp lc).length) iq).1,
       someAnalyzerState lc hc
         (filterCore (dlp hc) (dhp lc) (zeroZi (dlp hc).length (dhp lc).length) iq).2) := by
  simp [get_filtered_i_component, freshAnalyzerState, someAnalyzerState]

lemma processChunks_some (dlp dhp : ℚ → List Biquad) (lc hc : ℚ) (z : FilterZi)
    (chunks : List (List (ℚ × ℚ))) :
    processChunks dlp dhp (someAnalyzerState lc hc z) chunks =
      ((coreChunks (dlp hc) (dhp lc) z chunks).1,
       someAnalyzerState lc hc (coreChunks (dlp hc) (dhp lc) z chunks).2) := by
  induction chunks generalizing z with
  | nil => simp [processChunks, coreChunks]
  | cons ch rest ih =>
    simp only [processChunks, coreChunks, get_filtered_some, ih]

/-- C1: for every input signal and every non-empty way of splitting it into
consecutive chunks, filtering the chunks one at a time through the stateful
`get_filtered_i_component` with the carried-over SOS state vectors yields,
when concatenated, exactly the output of filtering the whole unsegmented
signal in a single pass, and the final four state vectors (I and Q rails,
low- and high-pass) agree as well, at fixed cutoffs with no reconfiguration
between chunks. -/
theorem C1_chunked_filtering_equiv (dlp dhp : ℚ → List Biquad) (lc hc : ℚ)
    (chunks : List (List (ℚ × ℚ))) (hne : chunks ≠ []) :
    processChunks dlp dhp (freshAnalyzerState lc hc) chunks =
      get_filtered_i_component dlp dhp (freshAnalyzerState lc hc) chunks.flatten := by
  match chunks, hne with
  | ch :: rest, _ =>
    simp only [processChunks, List.flatten_cons, get_filtered_fresh, processChunks_some]
    rw [coreChunks_flatten _ _ _ _ (goodZi_filterCore _ _ _ _), filterCore_append]

/-- C1 witness: a concrete two-chunk split filtered with concrete designs
equals the single-pass filtering of the concatenated signal. -/
theorem C1_chunked_filtering_equiv_witness :
    processChunks (fun _ => [⟨1, 1, 0, 1, 0⟩]) (fun _ => [⟨2, 0, 1, 0, 1⟩])
        (freshAnalyzerState 20 22000) [[(1, 2)], [(3, 4), (5, 6)]] =
      get_filtered_i_component (fun _ => [⟨1, 1, 0, 1, 0⟩]) (fun _ => [⟨2, 0, 1, 0, 1⟩])
        (freshAnalyzerState 20 22000) ([[(1, 2)], [(3, 4), (5, 6)]] : List (List (ℚ × ℚ))).flatten :=
  C1_chunked_filtering_equiv _ _ 20 22000 _ (by decide)

/-- `POST /set-filter`: stores `float(low_cut_in)` and `float(high_cut_in)`
into the globals, sets `zi_low_i = None` and answers with the
"filters updated" status.  The code performs no validation on the pair. -/
def set_filter (st : AnalyzerState) (low_cut_in high_cut_in : ℚ) :
    AnalyzerState × String :=
  ({ st with low_cut := low_cut_in, high_cut := high_cut_in, zi_low_i := none },
   "filters updated")

/-- `POST /reset-filter`: stores the defaults `float(20)` and `float(22000)`,
sets `zi_low_i = None` and answers with the "filters reseted" status. -/
def reset_filter (st : AnalyzerState) : AnalyzerState × String :=
  ({ st with low_cut := 20, high_cut := 22000, zi_low_i := none },
   "filters reseted")

/-- C3: after `set_filter` (or `reset_filter`), filtering the next chunk
produces exactly the output and resulting state that would be produced if
that chunk were the first chunk ever filtered at the new cutoffs: the
`zi_low_i = None` marker makes all four SOS state vectors behave as freshly
zeroed on that next filter call. -/
theorem C3_reconfigure_resets_state (dlp dhp : ℚ → List Biquad)
    (st : AnalyzerState) (lc hc : ℚ) (iq : List (ℚ × ℚ)) :
    get_filtered_i_component dlp dhp (set_filter st lc hc).1 iq =
      get_filtered_i_component dlp dhp (freshAnalyzerState lc hc) iq ∧
    get_filtered_i_component dlp dhp (reset_filter st).1 iq =
      get_filtered_i_component dlp dhp (freshAnalyzerState 20 22000) iq := by
  constructor
  · simp [get_filtered_i_component, set_filter, freshAnalyzerState]
  · simp [get_filtered_i_component, reset_filter, freshAnalyzerState]

/-- C4 counterexample: the pair (100, 50) violates `0 < low_cut < high_cut`,
yet `set_filter` stores it (replacing the previous configuration), resets
the filter-state marker and reports success instead of rejecting. -/
theorem C4_counterexample :
    set_filter initialAnalyzerState 100 50 =
      (⟨none, none, none, none, 100, 50⟩, "filters updated") ∧
    ¬ ((0 : ℚ) < 100 ∧ (100 : ℚ) < 50) := by
  constructor
  · rfl
  · decide

/-- C4 amended: `set_filter` requires both cutoffs and coerces them to
floats, but performs no ordering validation: every request is accepted, the
pair is stored verbatim (replacing the previous configuration), the filter
state is invalidated, and a success status is returned, even when
`0 < low_cut < high_cut` is violated. -/
theorem C4_set_filter_stores_unconditionally (st : AnalyzerState) (lc hc : ℚ) :
    (set_filter st lc hc).1.low_cut = lc ∧
    (set_filter st lc hc).1.high_cut = hc ∧
    (set_filter st lc hc).1.zi_low_i = none ∧
    (set_filter st lc hc).2 = "filters updated" := by
  refine ⟨rfl, rfl, rfl, rfl⟩

/-- Result of one `send_data_timed` run: the final deadline `next_end`, the
final sequence counter `self.nr`, the sequence numbers emitted with the
chunks (in order), and the argument of each `asyncio.sleep` performed
(0 when the deadline had already passed and no sleep happened). -/
structure SendResult where
  next_end : ℚ
  nr : ℕ
  emitted : List ℕ
  sleeps : List ℚ
deriving DecidableEq

/-- The loop of `StreamManager.send_data_timed` while the session stays
running, with the mutable pieces explicit: `next_end` is the carried
deadline (seconds, initialized to `loop.time()` when streaming starts),
`nr` the carried sequence counter; `nows` gives, for each chunk streamed,
the monotonic `loop.time()` reading observed after that chunk's emit.
Per chunk the code increments `nr`, advances the deadline by exactly
`period_ms / 1000.0`, emits `[nr, bytes]`, and sleeps
`next_end - loop.time()` only when that is positive, otherwise proceeds
immediately. -/
def send_data_timed (period_ms : ℚ) : ℚ → ℕ → List ℚ → SendResult
  | next_end, nr, [] => ⟨next_end, nr, [], []⟩
  | next_end, nr, now :: rest =>
    let nr2 := nr + 1
    let ne2 := next_end + period_ms / 1000
    let sleep_time := ne2 - now
    let r := send_data_timed period_ms ne2 nr2 rest
    ⟨r.next_end, r.nr, nr2 :: r.emitted,
     (if sleep_time > 0 then sleep_time else 0) :: r.sleeps⟩

lemma ite_pos_eq_max (x : ℚ) : (if x > 0 then x else 0) = max 0 x := by
  rcases le_or_lt x 0 with h | h
  · rw [if_neg (not_lt.mpr h), max_eq_left h]
  · rw [if_pos h, max_eq_right h.le]

lemma send_data_timed_nr (period_ms ne : ℚ) (nr : ℕ) (nows : List ℚ) :
    (send_data_timed period_ms ne nr nows).nr = nr + nows.length := by
  induction nows generalizing ne nr with
  | nil => simp [send_data_timed]
  | cons now rest ih => simp [send_data_timed, ih]; omega

lemma send_data_timed_sleeps_length (period_ms ne : ℚ) (nr : ℕ) (nows : List ℚ) :
    (send_data_timed period_ms ne nr nows).sleeps.length = nows.length := by
  induction nows generalizing ne nr with
  | nil => rfl
  | cons now rest ih => simp [send_data_timed, ih]

/-- C2: over any chunk sequence it streams (`nows` being the post-send clock
readings), `send_data_timed` keeps a single deadline anchored at the
monotonic reading `t0` taken when streaming starts: after n chunks the
deadline is exactly `t0 + n * period_ms / 1000` (one period per chunk, no
drift), and the k-th suspension is exactly `max 0 (deadline_k - now_k)` for
`deadline_k = t0 + (k+1) * period_ms / 1000` — so it suspends until the
deadline only when the deadline is still in the future and a missed deadline
never causes an additional wait. -/
theorem C2_timed_scheduler (period_ms t0 : ℚ) (nr : ℕ) (nows : List ℚ) :
    (send_data_timed period_ms t0 nr nows).next_end =
        t0 + nows.length * (period_ms / 1000) ∧
    (send_data_timed period_ms t0 nr nows).sleeps.length = nows.length ∧
    ∀ k, k < nows.length →
      (send_data_timed period_ms t0 nr nows).sleeps.getD k 0 =
        max 0 (t0 + (k + 1) * (period_ms / 1000) - nows.getD k 0) := by
  refine ⟨?_, send_data_timed_sleeps_length _ _ _ _, ?_⟩
  · induction nows generalizing t0 nr with
    | nil => simp [send_data_timed]
    | cons now rest ih =>
      simp only [send_data_timed, ih, List.length_cons]
      push_cast
      ring
  · induction nows generalizing t0 nr with
    | nil => intro k hk; simp at hk
    | cons now rest ih =>
      intro k hk
      match k with
      | 0 =>
        simp only [send_data_timed, List.getD_cons_zero, ite_pos_eq_max]
        congr 1
        push_cast
        ring
      | k + 1 =>
        have hk' : k < rest.length := by simpa using hk
        have := ih (t0 + period_ms / 1000) (nr + 1) k hk'
        simp only [send_data_timed, List.getD_cons_succ]
        rw [this]
        congr 1
        push_cast
        ring

/-- C2 witness: at period 100 ms anchored at t0 = 0 with post-send readings
[0, 1], the second chunk's deadline 2/10 has already passed at reading 1, so
the suspension is exactly max 0 (0 + 2 * (100/1000) - 1) = 0, and the final
deadline is 0 + 2 * (100/1000). -/
theorem C2_timed_scheduler_witness :
    (send_data_timed 100 0 0 [0, 1]).sleeps.getD 1 0 =
      max 0 (0 + (1 + 1) * ((100 : ℚ) / 1000) - ([0, 1] : List ℚ).getD 1 0) ∧
    (send_data_timed 100 0 0 [0, 1]).next_end =
      0 + ([0, 1] : List ℚ).length * ((100 : ℚ) / 1000) :=
  ⟨(C2_timed_scheduler 100 0 0 [0, 1]).2.2 1 (by decide),
   (C2_timed_scheduler 100 0 0 [0, 1]).1⟩

/-- The mutable fields of `StreamManager.__init__`: lifecycle state (the
strings "idle" / "running" as in the code), the mode this session serves,
and the per-session sequence counter `nr`, set to 0 only here. -/
structure StreamManager where
  state : String
  mode : String
  nr : ℕ
deriving DecidableEq

/-- A `StreamManager()` as constructed: state "idle", mode "noise", nr 0. -/
def newStreamManager : StreamManager := ⟨"idle", "noise", 0⟩

/-- `POST /stop`: sets both sessions' state to "idle", touching nothing
else, and reports "stopped". -/
def stop_endpoint (noiseSM sinesSM : StreamManager) :
    StreamManager × StreamManager × String :=
  ({ noiseSM with state := "idle" }, { sinesSM with state := "idle" }, "stopped")

/-- `start_streams()`: raises when either session is not idle, otherwise
sets both to "running" (the tasks themselves are outside this model). -/
def start_streams (noiseSM sinesSM : StreamManager) :
    Except String (StreamManager × StreamManager) :=
  if noiseSM.state = "idle" ∧ sinesSM.state = "idle" then
    Except.ok ({ noiseSM with state := "running" }, { sinesSM with state := "running" })
  else
    Except.error "Streams already running"

lemma send_data_timed_emitted (period_ms ne : ℚ) (nr : ℕ) (nows : List ℚ) :
    (send_data_timed period_ms ne nr nows).emitted =
      List.range' (nr + 1) nows.length := by
  induction nows generalizing ne nr with
  | nil => rfl
  | cons now rest ih => simp [send_data_timed, ih, List.range'_succ]

lemma pairwise_lt_range' (s n : ℕ) : List.Pairwise (· < ·) (List.range' s n) := by
  induction n generalizing s with
  | zero => exact List.Pairwise.nil
  | succ n ih =>
    rw [List.range'_succ]
    refine List.Pairwise.cons ?_ (ih (s + 1))
    intro b hb
    obtain ⟨i, _, rfl⟩ := List.mem_range'.mp hb
    omega

/-- C9: the sequence counter `nr` is zeroed only by the constructor; a stop
request and a subsequent (successful) start request both leave it unchanged,
so the numbers emitted by a second running episode continue strictly
increasing from where the first episode ended: the concatenation of the two
episodes' emitted sequence numbers is strictly increasing. -/
theorem C9_nr_survives_stop_start (p1 p2 t1 t2 : ℚ) (nows1 nows2 : List ℚ)
    (sines : StreamManager) :
    newStreamManager.nr = 0 ∧
    (∀ a b : StreamManager,
      (stop_endpoint a b).1.nr = a.nr ∧ (stop_endpoint a b).2.1.nr = b.nr) ∧
    (start_streams (stop_endpoint
        { newStreamManager with
            nr := (send_data_timed p1 t1 newStreamManager.nr nows1).nr } sines).1
        (stop_endpoint
        { newStreamManager with
            nr := (send_data_timed p1 t1 newStreamManager.nr nows1).nr } sines).2.1 =
      Except.ok
        ({ newStreamManager with
             state := "running",
             nr := (send_data_timed p1 t1 newStreamManager.nr nows1).nr },
         { sines with state := "running" })) ∧
    List.Pairwise (· < ·)
      ((send_data_timed p1 t1 newStreamManager.nr nows1).emitted ++
       (send_data_timed p2 t2
          (send_data_timed p1 t1 newStreamManager.nr nows1).nr nows2).emitted) := by
  refine ⟨rfl, fun a b => ⟨rfl, rfl⟩, ?_, ?_⟩
  · simp [start_streams, stop_endpoint]
  · simp only [send_data_timed_emitted, send_data_timed_nr]
    rw [List.pairwise_append]
    refine ⟨pairwise_lt_range' _ _, pairwise_lt_range' _ _, ?_⟩
    · intro a ha b hb
      obtain ⟨i, hi, rfl⟩ := List.mem_range'.mp ha
      obtain ⟨j, hj, rfl⟩ := List.mem_range'.mp hb
      omega


/-- The nominal chunk period of the generator, in milliseconds. -/
def CHUNK_PERIOD_MS : ℕ := 100

/-- `StreamManager.get_chunks_from_segment(segment, chunk_ms)`: the segment
is modelled as the list of its milliseconds of audio; the Python loop
`for i in range(0, len(segment), chunk_ms): yield segment[i : i + chunk_ms]`
enumerates the slice starts `k * chunk_ms` for the
`ceil(len(segment) / chunk_ms)` values produced by `range`, and each slice
`segment[i : i + chunk_ms]` keeps at most `chunk_ms` elements from index
`i` on. -/
def get_chunks_from_segment {α : Type} (chunk_ms : ℕ) (segment : List α) :
    List (List α) :=
  (List.range ((segment.length + chunk_ms - 1) / chunk_ms)).map
    (fun k => ((segment.drop (k * chunk_ms)).take chunk_ms))

/-- Recursive characterization of the chunking loop: peel `chunk_ms`
elements at a time. -/
def chunksRec {α : Type} (chunk_ms : ℕ) : List α → List (List α)
  | [] => []
  | x :: xs => ((x :: xs).take chunk_ms) :: chunksRec chunk_ms (xs.drop (chunk_ms - 1))
termination_by seg => seg.length
decreasing_by simp [List.length_drop]; omega

lemma chunksRec_nil {α : Type} (c : ℕ) : chunksRec c ([] : List α) = [] := by
  rw [chunksRec]

lemma chunksRec_cons_eq {α : Type} (c : ℕ) (hc : 0 < c) (x : α) (xs : List α) :
    chunksRec c (x :: xs) = ((x :: xs).take c) :: chunksRec c ((x :: xs).drop c) := by
  rw [chunksRec]
  congr 2
  match c, hc with
  | c + 1, _ => simp [List.drop_succ_cons]

lemma get_chunks_eq_chunksRec {α : Type} (c : ℕ) (hc : 0 < c) :
    ∀ (n : ℕ) (seg : List α), seg.length ≤ n →
      get_chunks_from_segment c seg = chunksRec c seg := by
  intro n
  induction n with
  | zero =>
    intro seg h
    have hseg : seg = [] := List.length_eq_zero.mp (Nat.le_zero.mp h)
    subst hseg
    have h0 : (0 + c - 1) / c = 0 := Nat.div_eq_of_lt (by omega)
    simp only [get_chunks_from_segment, List.length_nil, h0, List.range_zero,
               List.map_nil, chunksRec_nil]
  | succ n ih =>
    intro seg h
    match seg with
    | [] =>
      have h0 : (0 + c - 1) / c = 0 := Nat.div_eq_of_lt (by omega)
      simp only [get_chunks_from_segment, List.length_nil, h0, List.range_zero,
                 List.map_nil, chunksRec_nil]
    | x :: xs =>
      have hx : xs.length + 1 ≤ n + 1 := by simpa using h
      rw [chunksRec_cons_eq c hc,
          ← ih ((x :: xs).drop c) (by
            rw [List.length_drop]
            simp only [List.length_cons]
            omega)]
      simp only [get_chunks_from_segment, List.length_cons, List.length_drop]
      have hiter : (xs.length + 1 + c - 1) / c = xs.length / c + 1 := by
        have h1 : xs.length + 1 + c - 1 = xs.length + c := by omega
        rw [h1, Nat.add_div_right _ hc]
      have hiter2 : (xs.length + 1 - c + c - 1) / c = xs.length / c := by
        rcases Nat.lt_or_ge xs.length c with hlt | hge
        · have h1 : xs.length + 1 - c + c - 1 = c - 1 := by omega
          rw [h1, Nat.div_eq_of_lt (by omega), Nat.div_eq_of_lt hlt]
        · have h1 : xs.length + 1 - c + c - 1 = xs.length := by omega
          rw [h1]
      rw [hiter, hiter2, List.range_succ_eq_map, List.map_cons, List.map_map]
      congr 1
      · simp
      · apply List.map_congr_left
        intro k _
        simp only [Function.comp_apply]
        rw [List.drop_drop]
        congr 2
        rw [Nat.succ_mul, Nat.add_comm]

lemma chunksRec_flatten {α : Type} (c : ℕ) (hc : 0 < c) :
    ∀ (n : ℕ) (seg : List α), seg.length ≤ n → (chunksRec c seg).flatten = seg := by
  intro n
  induction n with
  | zero =>
    intro seg h
    have hseg : seg = [] := List.length_eq_zero.mp (Nat.le_zero.mp h)
    subst hseg
    simp [chunksRec_nil]
  | succ n ih =>
    intro seg h
    match seg with
    | [] => simp [chunksRec_nil]
    | x :: xs =>
      have hx : xs.length + 1 ≤ n + 1 := by simpa using h
      rw [chunksRec_cons_eq c hc, List.flatten_cons,
          ih _ (by
            rw [List.length_drop]
            simp only [List.length_cons]
            omega)]
      exact List.take_append_drop c (x :: xs)

lemma chunksRec_length_le {α : Type} (c : ℕ) (hc : 0 < c) :
    ∀ (n : ℕ) (seg : List α), seg.length ≤ n →
      ∀ ch ∈ chunksRec c seg, ch.length ≤ c := by
  intro n
  induction n with
  | zero =>
    intro seg h ch hch
    have hseg : seg = [] := List.length_eq_zero.mp (Nat.le_zero.mp h)
    subst hseg
    simp [chunksRec_nil] at hch
  | succ n ih =>
    intro seg h ch hch
    match seg with
    | [] => simp [chunksRec_nil] at hch
    | x :: xs =>
      have hx : xs.length + 1 ≤ n + 1 := by simpa using h
      rw [chunksRec_cons_eq c hc] at hch
      rcases List.mem_cons.mp hch with rfl | hch
      · simp [List.length_take]
      · exact ih _ (by
          rw [List.length_drop]
          simp only [List.length_cons]
          omega) ch hch

lemma chunksRec_ne_nil_iff {α : Type} (c : ℕ) (seg : List α) :
    chunksRec c seg ≠ [] ↔ seg ≠ [] := by
  match seg with
  | [] => simp [chunksRec_nil]
  | x :: xs => rw [chunksRec]; simp

lemma chunksRec_dropLast_length {α : Type} (c : ℕ) (hc : 0 < c) :
    ∀ (n : ℕ) (seg : List α), seg.length ≤ n →
      ∀ ch ∈ (chunksRec c seg).dropLast, ch.length = c := by
  intro n
  induction n with
  | zero =>
    intro seg h ch hch
    have hseg : seg = [] := List.length_eq_zero.mp (Nat.le_zero.mp h)
    subst hseg
    simp [chunksRec_nil] at hch
  | succ n ih =>
    intro seg h ch hch
    match seg with
    | [] => simp [chunksRec_nil] at hch
    | x :: xs =>
      have hx : xs.length + 1 ≤ n + 1 := by simpa using h
      rw [chunksRec_cons_eq c hc] at hch
      by_cases hrest : (x :: xs).drop c = []
      · rw [hrest, chunksRec_nil] at hch
        simp at hch
      · have hne : chunksRec c ((x :: xs).drop c) ≠ [] :=
          (chunksRec_ne_nil_iff c _).mpr hrest
        rw [List.dropLast_cons_of_ne_nil hne] at hch
        rcases List.mem_cons.mp hch with rfl | hch
        · have hlen : c < (x :: xs).length := by
            by_contra hle
            exact hrest (List.drop_eq_nil_of_le (by omega))
          simp only [List.length_cons] at hlen
          simp only [List.length_take, List.length_cons]
          omega
        · exact ih _ (by
            rw [List.length_drop]
            simp only [List.length_cons]
            omega) ch hch

/-- C6: for every segment and positive chunk period, the produced chunk
sequence covers the segment end-to-end with no overlap or gap (its
concatenation is the segment itself, so in particular the chunk durations
sum exactly to the segment duration), every chunk except possibly the last
has exactly the nominal duration, and every chunk — in particular a shorter
final one — is a verbatim slice of at most the nominal duration, with no
padding. -/
theorem C6_chunks_partition {α : Type} (chunk_ms : ℕ) (hc : 0 < chunk_ms)
    (segment : List α) :
    (get_chunks_from_segment chunk_ms segment).flatten = segment ∧
    (∀ ch ∈ (get_chunks_from_segment chunk_ms segment).dropLast,
      ch.length = chunk_ms) ∧
    (∀ ch ∈ get_chunks_from_segment chunk_ms segment, ch.length ≤ chunk_ms) := by
  rw [get_chunks_eq_chunksRec chunk_ms hc segment.length segment le_rfl]
  exact ⟨chunksRec_flatten chunk_ms hc segment.length segment le_rfl,
         chunksRec_dropLast_length chunk_ms hc segment.length segment le_rfl,
         chunksRec_length_le chunk_ms hc segment.length segment le_rfl⟩

/-- C6 witness: a 250-element segment at the nominal 100 ms period splits
into chunks of 100, 100 and 50 elements; the concatenation restores the
segment, the non-final chunks have full length, and all chunks are at most
100 long. -/
theorem C6_chunks_partition_witness :
    (get_chunks_from_segment CHUNK_PERIOD_MS (List.range 250)).flatten = List.range 250 ∧
    (∀ ch ∈ (get_chunks_from_segment CHUNK_PERIOD_MS (List.range 250)).dropLast,
      ch.length = CHUNK_PERIOD_MS) ∧
    (∀ ch ∈ get_chunks_from_segment CHUNK_PERIOD_MS (List.range 250),
      ch.length ≤ CHUNK_PERIOD_MS) :=
  C6_chunks_partition CHUNK_PERIOD_MS (by decide) (List.range 250)

/-- Little-endian 2-byte encoding, as `int.to_bytes(2, 'little')`. -/
def le16 (n : ℕ) : List ℕ :=
  [n % 256, n / 256 % 256]

/-- Little-endian 4-byte encoding, as `int.to_bytes(4, 'little')`. -/
def le32 (n : ℕ) : List ℕ :=
  [n % 256, n / 256 % 256, n / 65536 % 256, n / 16777216 % 256]

/-- `WavStreamManager.create_wav_header(sample_rate, channels,
bits_per_sample)`: the streaming WAV header bytes — RIFF tag, fake size
0xFFFFFFFF, WAVEfmt tag, fmt-chunk size 16, PCM tag 1, channel count,
sample rate, byte rate, block align, bit depth, data tag, fake data size
0xFFFFFFFF. -/
def create_wav_header (sample_rate channels bits_per_sample : ℕ) : List ℕ :=
  [82, 73, 70, 70] ++ le32 0xFFFFFFFF ++
  [87, 65, 86, 69, 102, 109, 116, 32] ++ le32 16 ++
  le16 1 ++ le16 channels ++ le32 sample_rate ++
  le32 (sample_rate * channels * bits_per_sample / 8) ++
  le16 (channels * bits_per_sample / 8) ++ le16 bits_per_sample ++
  [100, 97, 116, 97] ++ le32 0xFFFFFFFF

/-- The consumption loop of `WavStreamManager.event_generator`: pop items
from the queue (modelled as the list of pushed values, in push order; a
pushed `None` is `none`); yield each popped item that `is not None` and
keep going, stop at the first `none`.  With no sentinel in the queue the
loop would suspend on `queue.get()`, yielding nothing further. -/
def consumeQueue : List (Option (List ℕ)) → List (List ℕ)
  | [] => []
  | some d :: rest => d :: consumeQueue rest
  | none :: _ => []

/-- `WavStreamManager.event_generator()`: first yields
`create_wav_header(44100, 1, 16)`, then the queue items up to the `None`
sentinel. -/
def event_generator (queue : List (Option (List ℕ))) : List (List ℕ) :=
  create_wav_header 44100 1 16 :: consumeQueue queue

/-- C7: pushing K byte items and then the `None` sentinel (whatever is
pushed after it) makes the consumer yield the streaming WAV header once
first and then exactly those K items in push order, and nothing after the
sentinel is consumed: no item is dropped, duplicated or reordered. -/
theorem C7_queue_delivers_all_items (items : List (List ℕ))
    (after : List (Option (List ℕ))) :
    event_generator (items.map some ++ none :: after) =
      create_wav_header 44100 1 16 :: items := by
  unfold event_generator
  congr 1
  induction items with
  | nil => rfl
  | cons x xs ih => simpa [consumeQueue] using ih

/-- C10: only the exact value `None` acts as the stop sentinel: every other
pushed item — in particular the empty byte string — is forwarded verbatim
to the outbound stream and consumption continues afterwards, while a
leading `None` ends consumption at once. -/
theorem C10_only_none_is_sentinel (x : List ℕ)
    (q r : List (Option (List ℕ))) :
    consumeQueue (some x :: q) = x :: consumeQueue q ∧
    consumeQueue (some [] :: q) = [] :: consumeQueue q ∧
    consumeQueue (none :: r) = [] := by
  exact ⟨rfl, rfl, rfl⟩

/-- The fixed amplitude-envelope length of the filter analyzer. -/
def DOWNSAMPLE_AMPLITUDE : ℕ := 20

/-- The fixed amplitude-envelope length of the file-playback variant. -/
def DOWNSAMPLE_AMPLITUDE_MAIN : ℕ := 512

/-- `np.linspace(0, len - 1, n).astype(int)`: the n evenly spaced points
from 0 to len - 1, truncated to integers (nearest-index selection, no
interpolation). -/
def linspaceIdx (len n : ℕ) : List ℕ :=
  (List.range n).map (fun j => j * (len - 1) / (n - 1))

/-- `if len(padded) < n: padded = np.pad(padded, (0, n - len(padded)))`:
right-zero-padding up to length n, identity otherwise. -/
def padTo (n : ℕ) (l : List ℚ) : List ℚ :=
  if l.length < n then l ++ List.replicate (n - l.length) 0 else l

/-- `calculate_amplitude(filtered_iq_data)`: divide the samples by 32768.0,
right-zero-pad to `DOWNSAMPLE_AMPLITUDE` when shorter, then pick the values
at `np.linspace(0, len(padded) - 1, DOWNSAMPLE_AMPLITUDE).astype(int)`. -/
def calculate_amplitude (filtered_iq_data : List ℚ) : List ℚ :=
  let padded := padTo DOWNSAMPLE_AMPLITUDE
    (filtered_iq_data.map (fun s => s / 32768))
  (linspaceIdx padded.length DOWNSAMPLE_AMPLITUDE).map (fun i => padded.getD i 0)

/-- The amplitude computation inside `stream_data` of `main.py`: the frame
(already divided by 32768.0 when the file was loaded, in `load_mp3`) is
right-zero-padded to 512 samples when shorter, then sampled at evenly
spaced nearest indices. -/
def stream_data_amplitude (frame : List ℚ) : List ℚ :=
  let padded := padTo DOWNSAMPLE_AMPLITUDE_MAIN frame
  (linspaceIdx padded.length DOWNSAMPLE_AMPLITUDE_MAIN).map
    (fun i => padded.getD i 0)

lemma getD_mem_or_eq {α : Type} : ∀ (l : List α) (i : ℕ) (d : α),
    l.getD i d ∈ l ∨ l.getD i d = d
  | [], _, _ => Or.inr rfl
  | x :: xs, 0, d => Or.inl (by simp)
  | x :: xs, i + 1, d => by
    rcases getD_mem_or_eq xs i d with h | h
    · exact Or.inl (by simp only [List.getD_cons_succ]; exact List.mem_cons_of_mem x h)
    · exact Or.inr (by simp only [List.getD_cons_succ]; exact h)

lemma getD_replicate {α : Type} (a d : α) :
    ∀ (n i : ℕ), i < n → (List.replicate n a).getD i d = a
  | n + 1, 0, _ => rfl
  | n + 1, i + 1, h => by
    simp only [List.replicate_succ, List.getD_cons_succ]
    exact getD_replicate a d n i (by omega)

lemma div_32768_bounds (s : ℚ) (h1 : -32768 ≤ s) (h2 : s ≤ 32768) :
    -1 ≤ s / 32768 ∧ s / 32768 ≤ 1 := by
  constructor
  · rw [le_div_iff₀ (by norm_num : (0 : ℚ) < 32768)]
    linarith
  · rw [div_le_one (by norm_num : (0 : ℚ) < 32768)]
    exact h2

lemma padTo_bounds (n : ℕ) (l : List ℚ) (h : ∀ y ∈ l, -1 ≤ y ∧ y ≤ 1) :
    ∀ y ∈ padTo n l, -1 ≤ y ∧ y ≤ 1 := by
  intro y hy
  unfold padTo at hy
  split at hy
  · rcases List.mem_append.mp hy with hm | hm
    · exact h y hm
    · obtain rfl := List.eq_of_mem_replicate hm
      norm_num
  · exact h y hy

lemma getD_bounds (l : List ℚ) (h : ∀ y ∈ l, -1 ≤ y ∧ y ≤ 1) (i : ℕ) :
    -1 ≤ l.getD i 0 ∧ l.getD i 0 ≤ 1 := by
  rcases getD_mem_or_eq l i 0 with hm | he
  · exact h _ hm
  · rw [he]
    norm_num

/-- C8 counterexample: a filtered chunk of twenty samples of value 65536 —
twice the int16 full scale, as filter overshoot can produce — yields an
envelope value 2, outside [-1, 1]: the claimed unconditional bound fails
because the code divides by the constant 32768.0 rather than normalizing. -/
theorem C8_amplitude_counterexample :
    2 ∈ calculate_amplitude (List.replicate 20 65536) ∧
    ¬ ((-1 : ℚ) ≤ 2 ∧ (2 : ℚ) ≤ 1) := by
  constructor
  · have h1 : ((65536 : ℚ) / 32768) = 2 := by norm_num
    have hpad : padTo DOWNSAMPLE_AMPLITUDE
        ((List.replicate 20 (65536 : ℚ)).map (fun s => s / 32768)) =
        List.replicate 20 2 := by
      simp [padTo, List.map_replicate, h1, DOWNSAMPLE_AMPLITUDE]
    simp only [calculate_amplitude, hpad, List.length_replicate]
    refine List.mem_map.mpr ⟨0, ?_, ?_⟩
    · decide
    · exact getD_replicate _ _ _ _ (by norm_num [DOWNSAMPLE_AMPLITUDE])
  · norm_num

/-- C8 amended: the envelope always has exactly the fixed downsample length
(20 in the filter analyzer, 512 in the file-playback variant), is computed
by dividing by the int16 full scale 32768, right-zero-padding and
nearest-index selection, and its values lie in [-1, 1] provided the input
samples lie within the int16 full scale (respectively, provided the
pre-normalized frame already lies in [-1, 1]); without that proviso the
values can leave [-1, 1]. -/
theorem C8_amplitude_shape_and_bounds (xs frame : List ℚ)
    (hxs : ∀ s ∈ xs, -32768 ≤ s ∧ s ≤ 32768)
    (hframe : ∀ s ∈ frame, -1 ≤ s ∧ s ≤ 1) :
    (calculate_amplitude xs).length = DOWNSAMPLE_AMPLITUDE ∧
    (∀ v ∈ calculate_amplitude xs, -1 ≤ v ∧ v ≤ 1) ∧
    (stream_data_amplitude frame).length = DOWNSAMPLE_AMPLITUDE_MAIN ∧
    (∀ v ∈ stream_data_amplitude frame, -1 ≤ v ∧ v ≤ 1) := by
  refine ⟨?_, ?_, ?_, ?_⟩
  · simp [calculate_amplitude, linspaceIdx]
  · intro v hv
    simp only [calculate_amplitude, List.mem_map] at hv
    obtain ⟨i, _, rfl⟩ := hv
    refine getD_bounds _ (padTo_bounds _ _ ?_) i
    intro y hy
    obtain ⟨s, hs, rfl⟩ := List.mem_map.mp hy
    exact div_32768_bounds s (hxs s hs).1 (hxs s hs).2
  · simp [stream_data_amplitude, linspaceIdx]
  · intro v hv
    simp only [stream_data_amplitude, List.mem_map] at hv
    obtain ⟨i, _, rfl⟩ := hv
    exact getD_bounds _ (padTo_bounds _ _ hframe) i

/-- C8 amended witness: a one-sample full-scale chunk and a one-sample
normalized frame give envelopes of the fixed lengths with all values in
[-1, 1]. -/
theorem C8_amplitude_shape_and_bounds_witness :
    (calculate_amplitude [32768]).length = DOWNSAMPLE_AMPLITUDE ∧
    (∀ v ∈ calculate_amplitude [32768], -1 ≤ v ∧ v ≤ 1) ∧
    (stream_data_amplitude [1]).length = DOWNSAMPLE_AMPLITUDE_MAIN ∧
    (∀ v ∈ stream_data_amplitude [1], -1 ≤ v ∧ v ≤ 1) :=
  C8_amplitude_shape_and_bounds [32768] [1]
    (by
      intro s hs
      rw [List.mem_singleton] at hs
      subst hs
      norm_num)
    (by
      intro s hs
      rw [List.mem_singleton] at hs
      subst hs
      norm_num)

/-- The known mode set: the keys of the `modes` generator-factory table in
`audio_iq_generator.py`. -/
def modes_keys : List String := ["noise", "sines"]

/-- The generator's socket `set_mode(sid, mode)` handler, acting on the
requester's broadcast-group membership (the rooms the sid is in): an
unknown mode name returns immediately without touching the rooms; a known
one leaves every current room and enters the room named after the mode. -/
def generator_set_mode (rooms : List String) (mode : String) : List String :=
  if mode ∈ modes_keys then [mode] else rooms

/-- The analyzer's `POST /set-mode` endpoint: stores `mode_in` into the
global `mode` unconditionally (no validation against the known mode set),
forwards it to the generator, and always answers with the "mode changed"
status.  Takes the current global and returns the new global plus the
reported status. -/
def analyzer_set_mode (mode : String) (mode_in : String) : String × String :=
  (mode_in, "mode changed")

/-- C5 counterexample: requesting the unsupported name "plasma" does not
leave the previously active Mode unchanged with a no-op indication: the
analyzer's set-mode operation stores "plasma" as the active mode and
reports "mode changed". -/
theorem C5_counterexample :
    analyzer_set_mode "noise" "plasma" = ("plasma", "mode changed") ∧
    "plasma" ∉ modes_keys := by
  constructor
  · rfl
  · decide

/-- C5 amended: only the generator's socket handler validates the name:
for a name outside the known mode set it leaves the requester's
broadcast-group membership unchanged (a no-op), and for a known name it
moves the requester into that mode's group; the analyzer's set-mode
endpoint, however, stores any requested name unconditionally as the active
mode and always reports "mode changed". -/
theorem C5_mode_validation (rooms : List String) (m cur req : String) :
    (m ∉ modes_keys → generator_set_mode rooms m = rooms) ∧
    (m ∈ modes_keys → generator_set_mode rooms m = [m]) ∧
    analyzer_set_mode cur req = (req, "mode changed") := by
  refine ⟨fun h => ?_, fun h => ?_, rfl⟩
  · simp [generator_set_mode, h]
  · simp [generator_set_mode, h]

/-- C5 amended witness: the invalid name "plasma" leaves the rooms of a
subscriber of "noise" unchanged, while the valid name "sines" moves it. -/
theorem C5_mode_validation_witness :
    generator_set_mode ["noise"] "plasma" = ["noise"] ∧
    generator_set_mode ["noise"] "sines" = ["sines"] :=
  ⟨(C5_mode_validation ["noise"] "plasma" "noise" "plasma").1 (by decide),
   (C5_mode_validation ["noise"] "sines" "noise" "sines").2.1 (by decide)⟩
